import Mathlib

/-!
Verification of the graph subsystem of `oregan.py` (parameterized build
orchestrator) against its natural-language specification.

The Python source is shallowly embedded: pure functions become Lean
functions, the filesystem becomes an explicit map from paths to optional
modification times, Python exceptions become `Except` values, Python
dicts become association lists with first-match lookup (an insertion
prepends, which models overwriting assignment), and Python sets of
strings are modeled as duplicate-free lists (membership is what the code
observes).  The concurrent executor `Task.run` is embedded twice: as an
event trace (recording the order of its observable actions) and as a
state-outcome function (recording the flags it leaves behind), both
read off the source's control flow.
-/

namespace Oregan

/-! ## Placeholder extraction: `param_regex` and `get_params`

Source lines 10-14:
`param_regex = re.compile(r"\x7b([^\x7d]*)\x7d")` and
`get_params(s) = set(re.findall(param_regex, s))`.

`re.findall` takes leftmost non-overlapping matches of: a left brace,
a greedy run of zero-or-more non-right-brace characters, a right brace.
That is exactly the following one-pass state machine: outside any match
a left brace opens an accumulator; inside, any non-right-brace character
(left braces included) is accumulated, and a right brace emits the
accumulated name.  An unclosed left brace at end of string emits
nothing, and no later start position can match either (no right brace
remains), so the machine agrees with the regex scan. -/

def scanParamsAux : List Char → Option (List Char) → List String
  | [], _ => []
  | c :: cs, none =>
      if c = '\x7b' then scanParamsAux cs (some [])
      else scanParamsAux cs none
  | c :: cs, some acc =>
      if c = '\x7d' then String.mk acc.reverse :: scanParamsAux cs none
      else scanParamsAux cs (some (c :: acc))

/-- The raw list of regex matches, in order, duplicates kept
(`re.findall(param_regex, s)`). -/
def findallParams (s : String) : List String :=
  scanParamsAux s.data none

/-- Python `set` insertion modeled on duplicate-free lists. -/
def pyInsert (acc : List String) (x : String) : List String :=
  if x ∈ acc then acc else acc ++ [x]

/-- Python `set(l)` modeled as the deduplicated list (first occurrences
kept; only membership is ever observed by the source). -/
def pySet (l : List String) : List String :=
  l.foldl pyInsert []

/-- `get_params(s)`: the set of parameters in the string `s`
(source lines 12-14). -/
def get_params (s : String) : List String :=
  pySet (findallParams s)

theorem mem_foldl_pyInsert (l : List String) (acc : List String) (x : String) :
    x ∈ l.foldl pyInsert acc ↔ x ∈ acc ∨ x ∈ l := by
  induction l generalizing acc with
  | nil => simp
  | cons a as ih =>
      simp only [List.foldl_cons, ih, pyInsert]
      by_cases hax : a ∈ acc
      · simp only [if_pos hax]
        constructor
        · rintro (h | h)
          · exact Or.inl h
          · exact Or.inr (List.mem_cons_of_mem _ h)
        · rintro (h | h)
          · exact Or.inl h
          · rcases List.mem_cons.mp h with h | h
            · exact Or.inl (h ▸ hax)
            · exact Or.inr h
      · simp only [if_neg hax, List.mem_append, List.mem_singleton]
        constructor
        · rintro ((h | h) | h)
          · exact Or.inl h
          · exact Or.inr (List.mem_cons.mpr (Or.inl h))
          · exact Or.inr (List.mem_cons_of_mem _ h)
        · rintro (h | h)
          · exact Or.inl (Or.inl h)
          · rcases List.mem_cons.mp h with h | h
            · exact Or.inl (Or.inr h)
            · exact Or.inr h

theorem mem_pySet (l : List String) (x : String) : x ∈ pySet l ↔ x ∈ l := by
  simp [pySet, mem_foldl_pyInsert]

/-! ## Exceptions

Python exceptions that the embedded code can raise.  `MissingParameters`
(source lines 17-22) carries the place (the task spec name) and the set
of missing parameter names; the others stand for built-in Python
exceptions raised by dict lookups (`KeyError`), by comparing `None`
against a number (`TypeError`), and by `str.format` on malformed
templates (`ValueError`). -/

inductive PyErr where
  | typeError : PyErr
  | keyError : String → PyErr
  | valueError : PyErr
  | missingParameters : String → List String → PyErr
deriving DecidableEq

/-! ## Dict lookup and `str.format` -/

/-- Lookup in a Python dict of strings, modeled as first-match search in
an association list (updates prepend). -/
def lookupStr (b : List (String × String)) (k : String) : Option String :=
  (b.find? (fun p => p.1 = k)).map (fun p => p.2)

/-- One-pass engine for `template.format(**binding)` restricted to named
replacement fields.  The state is `none` outside a field and
`some acc` inside one.  A named field is looked up in the binding
(`KeyError` when absent); an unclosed left brace or a stray right brace
is a `ValueError` as in CPython.  Escapes, positional fields, attribute
access and format specs are NOT modeled: the theorems that rely on this
function restrict templates to well-formed ones (`wfTemplate`), on which
this engine agrees exactly with CPython. -/
def formatAux (b : List (String × String)) : List Char → Option (List Char) → Except PyErr (List Char)
  | [], none => .ok []
  | [], some _ => .error .valueError
  | c :: cs, none =>
      if c = '\x7b' then formatAux b cs (some [])
      else if c = '\x7d' then .error .valueError
      else
        match formatAux b cs none with
        | .error e => .error e
        | .ok out => .ok (c :: out)
  | c :: cs, some acc =>
      if c = '\x7d' then
        match lookupStr b (String.mk acc.reverse) with
        | none => .error (.keyError (String.mk acc.reverse))
        | some v =>
            match formatAux b cs none with
            | .error e => .error e
            | .ok out => .ok (v.data ++ out)
      else formatAux b cs (some (c :: acc))

/-- `template.format(**binding)` (see `formatAux`). -/
def pyFormat (b : List (String × String)) (s : String) : Except PyErr String :=
  match formatAux b s.data none with
  | .error e => .error e
  | .ok out => .ok (String.mk out)

/-- Characters allowed in a simple identifier. -/
def isIdentChar (c : Char) : Bool :=
  c.isAlpha || c.isDigit || c = '_'

/-- A simple identifier: nonempty, identifier characters only, not all
digits (all-digit field names are positional in `str.format`). -/
def isIdentName (n : List Char) : Bool :=
  !n.isEmpty && n.all isIdentChar && !n.all Char.isDigit

/-- Well-formedness of a template for the purposes of `formatAux`: every
left brace is closed by a right brace with a simple identifier in
between, and no stray right brace occurs.  On such templates the
embedded `formatAux` agrees exactly with CPython `str.format`. -/
def wfAux : List Char → Option (List Char) → Bool
  | [], none => true
  | [], some _ => false
  | c :: cs, none =>
      if c = '\x7b' then wfAux cs (some [])
      else if c = '\x7d' then false
      else wfAux cs none
  | c :: cs, some acc =>
      if c = '\x7d' then isIdentName acc.reverse && wfAux cs none
      else wfAux cs (some (c :: acc))

def wfTemplate (s : String) : Bool :=
  wfAux s.data none

/-! ## FileSpec and path joining -/

/-- `FileSpec` (source lines 25-39): a logical file name and a path
template. -/
structure FileSpec where
  name : String
  path : String
deriving DecidableEq

/-- `os.path.join(a, b)` for two POSIX path components (source line 39). -/
def osJoin (a b : String) : String :=
  if b.data.head? = some '/' then b
  else if a = "" ∨ a.data.getLast? = some '/' then a ++ b
  else a ++ "/" ++ b

/-- `FileSpec.concretize(fileroot, params)` (source lines 37-39): the
resulting concrete file, identified by its path.  The concrete `File`
object's cached `exists`/`time` fields are not stored: the code only
ever reads them after a `refresh`, so files are modeled by their path
and the filesystem is passed explicitly where needed. -/
def FileSpec.concretize (fs : FileSpec) (fileroot : String) (b : List (String × String)) : Except PyErr String :=
  match pyFormat b fs.path with
  | .error e => .error e
  | .ok p => .ok (osJoin fileroot p)

deriving instance DecidableEq for Except

/-! ## Properties of `get_params` (claim C9) -/

theorem scanParamsAux_no_rbrace (l : List Char) :
    ∀ (st : Option (List Char)), (∀ acc, st = some acc → '\x7d' ∉ acc) →
      ∀ n ∈ scanParamsAux l st, '\x7d' ∉ n.data := by
  induction l with
  | nil =>
      intro st hst n hn
      cases st <;> simp [scanParamsAux] at hn
  | cons c cs ih =>
      intro st hst n hn
      cases st with
      | none =>
          simp only [scanParamsAux] at hn
          by_cases hc : c = '\x7b'
          · rw [if_pos hc] at hn
            exact ih (some []) (by intro acc hacc; cases hacc; simp) n hn
          · rw [if_neg hc] at hn
            exact ih none (by intro acc hacc; cases hacc) n hn
      | some acc =>
          simp only [scanParamsAux] at hn
          by_cases hc : c = '\x7d'
          · rw [if_pos hc] at hn
            rcases List.mem_cons.mp hn with h | h
            · subst h
              intro hmem
              exact hst acc rfl (List.mem_reverse.mp hmem)
            · exact ih none (by intro acc2 hacc2; cases hacc2) n h
          · rw [if_neg hc] at hn
            refine ih (some (c :: acc)) ?_ n hn
            intro acc2 hacc2
            cases hacc2
            intro hmem
            rcases List.mem_cons.mp hmem with h | h
            · exact hc h.symm
            · exact hst acc rfl h

theorem get_params_no_rbrace (s n : String) (h : n ∈ get_params s) :
    '\x7d' ∉ n.data :=
  scanParamsAux_no_rbrace s.data none (by intro acc hacc; cases hacc) n
    ((mem_pySet _ _).mp h)

/-- Claim C9, counterexample: the claim states that the placeholder
syntax requires one or more non-brace characters, so that the two-char
string consisting of a left brace directly followed by a right brace
contains no placeholder.  In the code the regex allows zero characters
between the braces, so `get_params` on that string returns the set
containing the empty name, which is nonempty. -/
theorem c9_counterexample :
    get_params "\x7b\x7d" = [""] ∧ get_params "\x7b\x7d" ≠ ([] : List String) :=
  ⟨by decide, by decide⟩

/-- Claim C9 (amended): `parameters(template)` is the set of names
matched by a left brace, ZERO or more non-right-brace characters, then
a right brace, taken leftmost and non-overlapping.  Consequently no
extracted name contains a right brace, the two-char brace string yields
exactly the empty-named placeholder, and an extracted name may contain
a left brace. -/
theorem c9_zero_or_more_params :
    (∀ (s n : String), n ∈ get_params s → '\x7d' ∉ n.data) ∧
    get_params "\x7b\x7d" = [""] ∧
    get_params "\x7ba\x7bb\x7d" = ["a\x7bb"] :=
  ⟨fun s n h => get_params_no_rbrace s n h, by decide, by decide⟩

/-- Claim C9 (amended), witness: instantiates the universally quantified
part at the two-char brace string and the empty name. -/
theorem c9_zero_or_more_params_witness :
    ("" ∈ get_params "\x7b\x7d") ∧ '\x7d' ∉ ("" : String).data :=
  ⟨by decide, c9_zero_or_more_params.1 "\x7b\x7d" "" (by decide)⟩

/-! ## Concrete tasks and the staleness decision

`Task` (source lines 97-128).  The run-time mutable fields
(`completed`, `success`, whether waiters were notified) live in
`RunResult` below; concrete `File` objects are identified by their
paths, and the filesystem is an explicit map from absolute path to the
optional modification time (`none` models a nonexistent file, matching
the invariant that `exists` iff `time` is not `None`). -/

/-- The filesystem: absolute path to modification time, `none` when the
file does not exist. -/
def Fs : Type := String → Option Int

structure Task where
  name : String
  file_dependencies : List String
  command : String
  generates : List String
  redo_if_modified : Bool
  uses : List String
  task_dependencies : List Nat
  task_successors : List Nat
deriving DecidableEq, Inhabited

/-- Python comparison `d.time > g.time` (source line 144): ordinary
integer comparison when both times are present, `TypeError` when either
side is `None`. -/
def pyGt : Option Int → Option Int → Except PyErr Bool
  | some a, some b => .ok (decide (b < a))
  | _, _ => .error .typeError

/-- The inner loop of `needs_running` (source lines 142-145): for each
dependency `d`, refresh it and return `True` as soon as
`d.time > g.time`; a `None` comparison raises. -/
def checkDeps (fs : Fs) (gtime : Option Int) : List String → Except PyErr Bool
  | [] => .ok false
  | p :: ps =>
      match pyGt (fs p) gtime with
      | .error e => .error e
      | .ok true => .ok true
      | .ok false => checkDeps fs gtime ps

/-- The outer loop of `needs_running` (source lines 141-145): iterate
the generated files, running the dependency loop against each one. -/
def checkGens (fs : Fs) (deps : List String) : List String → Except PyErr Bool
  | [] => .ok false
  | gp :: gs =>
      match checkDeps fs (fs gp) deps with
      | .error e => .error e
      | .ok true => .ok true
      | .ok false => checkGens fs deps gs

/-- `Task.needs_running` (source lines 130-146): refresh every
generated file; return `True` if any does not exist; otherwise, when
`redo_if_modified` is set, return `True` as soon as some dependency's
refreshed mtime strictly exceeds some generated file's mtime; otherwise
return `False`. -/
def Task.needs_running (fs : Fs) (t : Task) : Except PyErr Bool :=
  if t.generates.any (fun gp => (fs gp).isNone) then .ok true
  else if t.redo_if_modified then checkGens fs t.file_dependencies t.generates
  else .ok false

/-- Total version of the mtime comparison, used to state what
`needs_running` computes: true exactly when both times exist and the
first strictly exceeds the second. -/
def timeGt (d g : Option Int) : Bool :=
  match d, g with
  | some a, some b => decide (b < a)
  | _, _ => false

theorem checkDeps_eq_any (fs : Fs) (gtime : Option Int) (deps : List String)
    (hg : gtime.isSome) (hd : ∀ p ∈ deps, (fs p).isSome) :
    checkDeps fs gtime deps = .ok (deps.any (fun dp => timeGt (fs dp) gtime)) := by
  induction deps with
  | nil => simp [checkDeps]
  | cons p ps ih =>
      obtain ⟨b, hb⟩ := Option.isSome_iff_exists.mp hg
      subst hb
      obtain ⟨a, ha⟩ := Option.isSome_iff_exists.mp (hd p (List.mem_cons_self p ps))
      have hrest : ∀ q ∈ ps, (fs q).isSome := fun q hq => hd q (List.mem_cons_of_mem _ hq)
      have htg : timeGt (some a) (some b) = decide (b < a) := by simp [timeGt]
      by_cases hab : b < a
      · simp [checkDeps, ha, pyGt, List.any_cons, htg, hab]
      · simp [checkDeps, ha, pyGt, List.any_cons, htg, hab, ih hrest]

theorem checkGens_eq_any (fs : Fs) (deps : List String) (gens : List String)
    (hg : ∀ gp ∈ gens, (fs gp).isSome) (hd : ∀ p ∈ deps, (fs p).isSome) :
    checkGens fs deps gens =
      .ok (gens.any (fun gp => deps.any (fun dp => timeGt (fs dp) (fs gp)))) := by
  induction gens with
  | nil => simp [checkGens]
  | cons gp gs ih =>
      have hgp : (fs gp).isSome := hg gp (List.mem_cons_self gp gs)
      have hrest : ∀ q ∈ gs, (fs q).isSome := fun q hq => hg q (List.mem_cons_of_mem _ hq)
      simp only [checkGens, checkDeps_eq_any fs (fs gp) deps hgp hd, List.any_cons]
      by_cases hany : deps.any (fun dp => timeGt (fs dp) (fs gp)) = true
      · simp [hany]
      · simp only [Bool.not_eq_true] at hany
        simp [hany, ih hrest]

/-- Claim C6: for a task all of whose input files exist, the staleness
decision returns normally, true exactly when some output is missing or
`redo_if_modified` is set and some input's mtime strictly exceeds some
output's mtime (strict comparison: ties do not trigger, and with
`redo_if_modified` unset only output existence is consulted). -/
theorem c6_needs_running_characterization (fs : Fs) (t : Task)
    (hdeps : ∀ p ∈ t.file_dependencies, (fs p).isSome) :
    Task.needs_running fs t = .ok
      ((t.generates.any (fun gp => (fs gp).isNone)) ||
       (t.redo_if_modified &&
        t.generates.any (fun gp =>
          t.file_dependencies.any (fun dp => timeGt (fs dp) (fs gp))))) := by
  by_cases hmiss : t.generates.any (fun gp => (fs gp).isNone) = true
  · simp [Task.needs_running, hmiss]
  · simp only [Bool.not_eq_true] at hmiss
    have hgens : ∀ gp ∈ t.generates, (fs gp).isSome := by
      intro gp hgp
      have h1 := List.any_eq_false.mp hmiss gp hgp
      cases hfp : fs gp with
      | none => rw [hfp] at h1; simp at h1
      | some a => simp [hfp]
    by_cases hredo : t.redo_if_modified = true
    · simp [Task.needs_running, hmiss, hredo,
        checkGens_eq_any fs t.file_dependencies t.generates hgens hdeps]
    · simp only [Bool.not_eq_true] at hredo
      simp [Task.needs_running, hmiss, hredo]

def fsC6 : Fs := fun p =>
  if p = "root/out.txt" then some 5
  else if p = "root/in.txt" then some 9
  else none

def tC6 : Task :=
  { name := "w", file_dependencies := ["root/in.txt"], command := "c",
    generates := ["root/out.txt"], redo_if_modified := true, uses := [],
    task_dependencies := [], task_successors := [] }

/-- Claim C6, witness: a task with one existing input (mtime 9) and one
existing output (mtime 5) under `redo_if_modified`. -/
theorem c6_needs_running_characterization_witness :
    (∀ p ∈ tC6.file_dependencies, (fsC6 p).isSome) ∧
    Task.needs_running fsC6 tC6 = .ok
      ((tC6.generates.any (fun gp => (fsC6 gp).isNone)) ||
       (tC6.redo_if_modified &&
        tC6.generates.any (fun gp =>
          tC6.file_dependencies.any (fun dp => timeGt (fsC6 dp) (fsC6 gp))))) :=
  ⟨by decide, c6_needs_running_characterization fsC6 tC6 (by decide)⟩

/-! ## Claim C10: missing inputs under `redo_if_modified` -/

def fsC10 : Fs := fun p =>
  if p = "root/out" then some 5
  else if p = "root/in1" then some 10
  else none

def tC10 : Task :=
  { name := "x", file_dependencies := ["root/in1", "root/in2"], command := "c",
    generates := ["root/out"], redo_if_modified := true, uses := [],
    task_dependencies := [], task_successors := [] }

/-- Claim C10, counterexample: with `redo_if_modified`, every output
existing (mtime 5) and the SECOND input missing, the claim predicts an
exception; but the first input exists with mtime 10 > 5, so the inner
loop returns true before reaching the missing input and no exception is
raised. -/
theorem c10_counterexample :
    (fsC10 "root/in2").isNone = true ∧
    ("root/in2" ∈ tC10.file_dependencies) ∧
    (∀ gp ∈ tC10.generates, (fsC10 gp).isSome) ∧
    tC10.redo_if_modified = true ∧
    Task.needs_running fsC10 tC10 = .ok true := by
  refine ⟨by decide, by decide, by decide, by decide, by decide⟩

theorem checkDeps_missing (fs : Fs) (gtime : Option Int) (deps : List String)
    (hg : gtime.isSome)
    (hmiss : ∃ p ∈ deps, (fs p).isNone) :
    checkDeps fs gtime deps = .error .typeError ∨
    checkDeps fs gtime deps = .ok true := by
  induction deps with
  | nil => simp at hmiss
  | cons p ps ih =>
      obtain ⟨b, hb⟩ := Option.isSome_iff_exists.mp hg
      cases hfp : fs p with
      | none =>
          left
          simp [checkDeps, hfp, hb, pyGt]
      | some a =>
          have hmiss2 : ∃ q ∈ ps, (fs q).isNone := by
            obtain ⟨q, hq, hqn⟩ := hmiss
            rcases List.mem_cons.mp hq with h | h
            · subst h
              rw [hfp] at hqn
              simp at hqn
            · exact ⟨q, h, hqn⟩
          by_cases hab : b < a
          · right
            simp [checkDeps, hfp, hb, pyGt, hab]
          · have := ih hmiss2
            simpa [checkDeps, hfp, hb, pyGt, hab] using this

/-- Claim C10 (amended): for a task with `redo_if_modified`, at least
one output, every output existing and some input missing, the staleness
decision never returns false: it either raises the `TypeError` from
comparing a missing mtime, or returns true because an input examined
before the first missing one already had a strictly newer mtime. -/
theorem c10_missing_input_never_false (fs : Fs) (t : Task)
    (hredo : t.redo_if_modified = true)
    (hne : t.generates ≠ [])
    (hgens : ∀ gp ∈ t.generates, (fs gp).isSome)
    (hmiss : ∃ dp ∈ t.file_dependencies, (fs dp).isNone) :
    Task.needs_running fs t = .error .typeError ∨
    Task.needs_running fs t = .ok true := by
  have hnomiss : t.generates.any (fun gp => (fs gp).isNone) = false := by
    rw [List.any_eq_false]
    intro gp hgp
    have h1 := hgens gp hgp
    cases hfp : fs gp with
    | none => rw [hfp] at h1; simp at h1
    | some a => simp [hfp]
  have hrun : Task.needs_running fs t = checkGens fs t.file_dependencies t.generates := by
    simp [Task.needs_running, hnomiss, hredo]
  cases hg : t.generates with
  | nil => exact absurd hg hne
  | cons gp gs =>
      have hgp : (fs gp).isSome := hgens gp (by rw [hg]; exact List.mem_cons_self gp gs)
      have hfirst := checkDeps_missing fs (fs gp) t.file_dependencies hgp hmiss
      rcases hfirst with h | h
      · left
        rw [hrun, hg]
        simp [checkGens, h]
      · right
        rw [hrun, hg]
        simp [checkGens, h]

def fsC10w : Fs := fun p => if p = "root/o" then some 5 else none

def tC10w : Task :=
  { name := "y", file_dependencies := ["root/i"], command := "c",
    generates := ["root/o"], redo_if_modified := true, uses := [],
    task_dependencies := [], task_successors := [] }

/-- Claim C10 (amended), witness: one existing output, one missing
input; the decision raises the modeled `TypeError`. -/
theorem c10_missing_input_never_false_witness :
    (tC10w.redo_if_modified = true ∧ tC10w.generates ≠ [] ∧
     (∀ gp ∈ tC10w.generates, (fsC10w gp).isSome) ∧
     (∃ dp ∈ tC10w.file_dependencies, (fsC10w dp).isNone)) ∧
    (Task.needs_running fsC10w tC10w = .error .typeError ∨
     Task.needs_running fsC10w tC10w = .ok true) :=
  ⟨⟨by decide, by decide, by decide, by decide⟩,
    c10_missing_input_never_false fsC10w tC10w (by decide) (by decide)
      (by decide) (by decide)⟩

/-! ## The executor: `Task.run` and `CommandGraph.run`

`Task.run` (source lines 148-189) runs on its own thread.  Its effect
on the task's own state depends only on the value `needs_running`
returned, the `completed`/`success` flags of its predecessors at the
moment it examines them, and the child process outcome.  Two embeddings
are given, both read directly off the source's control flow:

* `Task.runTrace`: the ordered list of observable actions the function
  performs (needed for the ordering claims C3/C5);
* `Task.runModel`: the flags the function leaves behind — `success`
  and `completed`, whether `done.notify_all()` was called, whether the
  command was executed, whether resource/thread semaphores were
  acquired (needed for claims C1/C2/C5).

In `runModel` the predecessor states are taken as the final ones (the
`wait` having returned), which is exact whenever the schedule lets
every examined predecessor finish, in particular in the single-task and
sequential instances evaluated below. -/

/-- The run-time state `Task.run` leaves behind, plus what it did on
the way.  `success` and `completed` are initialized `False`
(source lines 119 and 125); the remaining fields record actions. -/
structure RunResult where
  success : Bool
  completed : Bool
  notified : Bool
  commandRan : Bool
  acquiredResources : Bool
  acquiredThread : Bool
deriving DecidableEq

/-- The state of a `Task` object before its `run` is invoked. -/
def RunResult.initial : RunResult :=
  { success := false, completed := false, notified := false,
    commandRan := false, acquiredResources := false, acquiredThread := false }

/-- `Task.run` as a state-outcome function (source lines 148-189).

If `needs_running()` returned false the function only prints and
returns: no flag is touched and nobody is notified (the `else` branch,
lines 186-187).  Otherwise it scans `task_dependencies` in order: on
the first predecessor whose `success` is false it sets
`success = False, completed = True`, notifies, and returns without
acquiring anything (lines 152-163).  Otherwise it acquires the
resources and the thread semaphore, runs the command, sets `success`
from the outcome, releases, sets `completed = True` and notifies
(lines 164-185). -/
def Task.runModel (needed : Bool) (predSuccess : List Bool) (cmdOk : Bool) : RunResult :=
  if needed then
    if predSuccess.all (fun b => b) then
      { success := cmdOk, completed := true, notified := true,
        commandRan := true, acquiredResources := true, acquiredThread := true }
    else
      { success := false, completed := true, notified := true,
        commandRan := false, acquiredResources := false, acquiredThread := false }
  else RunResult.initial

/-- Observable actions of one invocation of `Task.run`, in program
order. -/
inductive Ev where
  | evalNeedsRunning : Ev
  | waitPred : Nat → Ev
  | notifyAll : Ev
  | acquireResource : Nat → Ev
  | acquireThread : Ev
  | execCommand : Ev
  | releaseThread : Ev
  | releaseResource : Nat → Ev
deriving DecidableEq

/-- The predecessor loop of `Task.run` (source lines 152-163) followed,
when every predecessor succeeded, by the acquire/run/release sequence
(lines 164-185).  Each predecessor is described by the pair
`(completed, success)` observed for it; `waitPred` is emitted only when
`completed` was false at the check. -/
def predLoopTrace (nres : Nat) : Nat → List (Bool × Bool) → List Ev
  | _, [] =>
      (List.range nres).map Ev.acquireResource ++
        [Ev.acquireThread, Ev.execCommand, Ev.releaseThread] ++
        ((List.range nres).reverse.map Ev.releaseResource) ++ [Ev.notifyAll]
  | i, p :: ps =>
      (if p.1 then [] else [Ev.waitPred i]) ++
        (if p.2 then predLoopTrace nres (i + 1) ps else [Ev.notifyAll])

/-- `Task.run` as an event trace (source lines 148-189): the very first
thing the function does is evaluate `self.needs_running()` in the `if`
condition on line 150; only afterwards, and only when it returned true,
does the function wait on its predecessors. -/
def Task.runTrace (needed : Bool) (preds : List (Bool × Bool)) (nres : Nat) : List Ev :=
  Ev.evalNeedsRunning :: (if needed then predLoopTrace nres 0 preds else [])

/-- The value `CommandGraph.run` returns after joining all threads
(source line 268): `all(t.success for t in self.tasks)`. -/
def CommandGraph.runReturn (results : List RunResult) : Bool :=
  results.all (fun r => r.success)

/-- Sequential instance of `CommandGraph.run` (source lines 252-268):
tasks are processed in list order, each evaluating `needs_running`
against the filesystem and then running `Task.runModel` with its
predecessors' already-computed results.  For graphs whose behavior does
not depend on the schedule (in particular the one-task graphs evaluated
below, where no command runs and no thread waits), this agrees with the
threaded original. -/
def runGraphAux (fs : Fs) (cmdOk : Nat → Bool) : List Task → List RunResult → Except PyErr (List RunResult)
  | [], acc => .ok acc
  | t :: ts, acc =>
      match Task.needs_running fs t with
      | .error e => .error e
      | .ok nr =>
          let preds := t.task_dependencies.map (fun i => (acc.getD i RunResult.initial).success)
          runGraphAux fs cmdOk ts (acc ++ [Task.runModel nr preds (cmdOk acc.length)])

def CommandGraph.runSeq (fs : Fs) (cmdOk : Nat → Bool) (tasks : List Task) : Except PyErr Bool :=
  match runGraphAux fs cmdOk tasks [] with
  | .error e => .error e
  | .ok results => .ok (CommandGraph.runReturn results)

/-! ## Claim C2: a task whose `needs_running` is false -/

/-- Claim C2, divergence exhibited: when `needs_running` evaluated to
false, the claim says the executor transitions the task to the
succeeded terminal state and notifies all waiters without invoking the
command.  In the code the `else` branch only prints: `success` stays
false (not succeeded), `completed` stays false (not terminal), nobody
is notified; only the "command not invoked" part holds. -/
theorem c2_skip_branch_updates_nothing :
    (Task.runModel false [] true).success = false ∧
    (Task.runModel false [] true).completed = false ∧
    (Task.runModel false [] true).notified = false ∧
    (Task.runModel false [] true).commandRan = false := by
  refine ⟨rfl, rfl, rfl, rfl⟩

/-! ## Claim C5: a task with a failed predecessor -/

/-- Claim C5, divergence exhibited: for a task with a (terminally)
failed predecessor the claim says the executor always marks it
completed-and-not-succeeded, notifies waiters, and returns without
acquiring semaphores or running the command.  In the code this happens
only when `needs_running()` returned true (first conjunct block); when
`needs_running()` returned false the task never examines its
predecessors and returns with `completed` false and nobody notified
(second conjunct block), so waiters are never woken. -/
theorem c5_failed_pred_skip_paths :
    ((Task.runModel true [false] true).success = false ∧
     (Task.runModel true [false] true).completed = true ∧
     (Task.runModel true [false] true).notified = true ∧
     (Task.runModel true [false] true).commandRan = false ∧
     (Task.runModel true [false] true).acquiredResources = false ∧
     (Task.runModel true [false] true).acquiredThread = false) ∧
    ((Task.runModel false [false] true).completed = false ∧
     (Task.runModel false [false] true).notified = false) := by
  refine ⟨⟨rfl, rfl, rfl, rfl, rfl, rfl⟩, rfl, rfl⟩

/-! ## Claim C3: order of `needs_running` and the predecessor wait -/

/-- Claim C3, divergence exhibited: for a dependency edge `p → t` the
claim says `needs_running(t)` is evaluated only after every predecessor
reached a terminal state.  In the code `Task.run` evaluates
`self.needs_running()` as its very first action (line 150), before the
loop that waits on `task_dependencies` (lines 152-155): with one
not-yet-completed, eventually succeeding predecessor and no resources,
the trace starts with the evaluation and waits only afterwards. -/
theorem c3_needs_running_evaluated_before_wait :
    Task.runTrace true [(false, true)] 0 =
      [Ev.evalNeedsRunning, Ev.waitPred 0, Ev.acquireThread, Ev.execCommand,
       Ev.releaseThread, Ev.notifyAll] ∧
    (∀ needed preds nres, (Task.runTrace needed preds nres).head? = some Ev.evalNeedsRunning) := by
  refine ⟨by decide, fun needed preds nres => rfl⟩

/-! ## Claim C1: the value returned by `CommandGraph.run` -/

def fsC1 : Fs := fun p => if p = "root/out" then some 3 else none

def tC1 : Task :=
  { name := "t", file_dependencies := [], command := "make out",
    generates := ["root/out"], redo_if_modified := false, uses := [],
    task_dependencies := [], task_successors := [] }

/-- Claim C1, divergence exhibited: a one-task graph whose only task is
skipped because `needs_running` is false (its output exists).  The
claim says `run()` returns true in this situation; in the code the
skipped task's `success` flag is never set, so
`all(t.success for t in self.tasks)` — and hence `run()` — is false.
No command runs and there are no waiters, so the sequential instance is
exact for this graph. -/
theorem c1_run_false_on_skipped_graph :
    Task.needs_running fsC1 tC1 = .ok false ∧
    CommandGraph.runSeq fsC1 (fun _ => true) [tC1] = .ok false := by
  refine ⟨by decide, by decide⟩

/-! ## TaskSpec and its concretization (claim C8)

`TaskSpec` (source lines 56-94).  `self.params` is the union of the
parameters of the command template, of every generated path template
and of every dependency path template (lines 71-76). -/

structure TaskSpec where
  name : String
  dependencies : List FileSpec
  command : String
  generates : List FileSpec
  uses : List String
deriving DecidableEq

def TaskSpec.params (ts : TaskSpec) : List String :=
  pySet (findallParams ts.command ++
    (ts.generates.map (fun g => findallParams g.path)).flatten ++
    (ts.dependencies.map (fun d => findallParams d.path)).flatten)

/-- A single-quote character as a string (for Python `repr`). -/
def squote : String := String.mk ['\x27']

/-- Python `repr` of a string value without special characters. -/
def pyReprStr (s : String) : String := squote ++ s ++ squote

/-- Python `repr` of a string-valued dict in insertion order
(used for the concrete task's name, source line 88). -/
def pyReprDict (b : List (String × String)) : String :=
  "\x7b" ++
    String.intercalate ", " (b.map (fun p => pyReprStr p.1 ++ ": " ++ pyReprStr p.2)) ++
    "\x7d"

/-- The list comprehensions `[d.concretize(root_path, params) for d in …]`
(source lines 89 and 92): first failure propagates. -/
def concretizeFiles (root : String) (b : List (String × String)) : List FileSpec → Except PyErr (List String)
  | [] => .ok []
  | f :: rest =>
      match FileSpec.concretize f root b with
      | .error e => .error e
      | .ok p =>
          match concretizeFiles root b rest with
          | .error e => .error e
          | .ok ps => .ok (p :: ps)

/-- `TaskSpec.concretize(root_path, params, redo_if_modified)` (source
lines 78-94): raise `MissingParameters(self.name, self.params - param_set)`
unless the binding's key set contains every parameter; otherwise build
the concrete `Task`, instantiating dependency paths, the command and
generated paths in the argument order of the `Task(...)` call. -/
def TaskSpec.concretize (ts : TaskSpec) (root_path : String) (b : List (String × String)) (redo : Bool) : Except PyErr Task :=
  let ks := b.map (fun q => q.1)
  if !(ts.params.all (fun p => decide (p ∈ ks))) then
    .error (.missingParameters ts.name (ts.params.filter (fun p => decide (p ∉ ks))))
  else
    match concretizeFiles root_path b ts.dependencies with
    | .error e => .error e
    | .ok deps =>
        match pyFormat b ts.command with
        | .error e => .error e
        | .ok cmd =>
            match concretizeFiles root_path b ts.generates with
            | .error e => .error e
            | .ok gens =>
                .ok { name := ts.name ++ pyReprDict b,
                      file_dependencies := deps, command := cmd,
                      generates := gens, redo_if_modified := redo,
                      uses := ts.uses, task_dependencies := [],
                      task_successors := [] }

/-- All templates of a task spec are well formed in the sense of
`wfTemplate` (identifier-named placeholders, balanced braces): on this
domain the embedded `str.format` agrees exactly with CPython. -/
def TaskSpec.wfTemplates (ts : TaskSpec) : Bool :=
  wfTemplate ts.command && ts.generates.all (fun g => wfTemplate g.path) &&
    ts.dependencies.all (fun d => wfTemplate d.path)

theorem lookupStr_isSome_of_mem (b : List (String × String)) (n : String)
    (h : n ∈ b.map (fun q => q.1)) : (lookupStr b n).isSome := by
  induction b with
  | nil => simp at h
  | cons q qs ih =>
      by_cases hq : q.1 = n
      · simp [lookupStr, List.find?_cons, hq]
      · simp only [List.map_cons, List.mem_cons] at h
        rcases h with h | h
        · exact absurd h.symm hq
        · have h2 := ih h
          simpa [lookupStr, List.find?_cons, hq] using h2

theorem formatAux_ok_of_wf (b : List (String × String)) (cs : List Char) :
    ∀ st, wfAux cs st = true →
      (∀ n ∈ scanParamsAux cs st, (lookupStr b n).isSome) →
      ∃ out, formatAux b cs st = .ok out := by
  induction cs with
  | nil =>
      intro st hwf hn
      cases st with
      | none => exact ⟨[], rfl⟩
      | some acc => simp [wfAux] at hwf
  | cons c cs ih =>
      intro st hwf hn
      cases st with
      | none =>
          by_cases hb : c = '\x7b'
          · simp only [wfAux, if_pos hb] at hwf
            have hn2 : ∀ n ∈ scanParamsAux cs (some []), (lookupStr b n).isSome := by
              intro n hmem
              apply hn
              simp only [scanParamsAux, if_pos hb]
              exact hmem
            obtain ⟨out, hout⟩ := ih (some []) hwf hn2
            exact ⟨out, by simp only [formatAux, if_pos hb]; exact hout⟩
          · by_cases hd2 : c = '\x7d'
            · simp [wfAux, hb, hd2] at hwf
            · simp only [wfAux, if_neg hb, if_neg hd2] at hwf
              have hn2 : ∀ n ∈ scanParamsAux cs none, (lookupStr b n).isSome := by
                intro n hmem
                apply hn
                simp only [scanParamsAux, if_neg hb]
                exact hmem
              obtain ⟨out, hout⟩ := ih none hwf hn2
              refine ⟨c :: out, ?_⟩
              simp only [formatAux, if_neg hb, if_neg hd2, hout]
      | some acc =>
          by_cases hd2 : c = '\x7d'
          · simp only [wfAux, if_pos hd2, Bool.and_eq_true] at hwf
            have hlook : (lookupStr b (String.mk acc.reverse)).isSome := by
              apply hn
              simp only [scanParamsAux, if_pos hd2]
              exact List.mem_cons_self _ _
            obtain ⟨v, hv⟩ := Option.isSome_iff_exists.mp hlook
            have hn2 : ∀ n ∈ scanParamsAux cs none, (lookupStr b n).isSome := by
              intro n hmem
              apply hn
              simp only [scanParamsAux, if_pos hd2]
              exact List.mem_cons_of_mem _ hmem
            obtain ⟨out, hout⟩ := ih none hwf.2 hn2
            refine ⟨v.data ++ out, ?_⟩
            simp only [formatAux, if_pos hd2, hv, hout]
          · simp only [wfAux, if_neg hd2] at hwf
            have hn2 : ∀ n ∈ scanParamsAux cs (some (c :: acc)), (lookupStr b n).isSome := by
              intro n hmem
              apply hn
              simp only [scanParamsAux, if_neg hd2]
              exact hmem
            obtain ⟨out, hout⟩ := ih (some (c :: acc)) hwf hn2
            refine ⟨out, ?_⟩
            simp only [formatAux, if_neg hd2]
            exact hout

theorem pyFormat_ok_of_wf (b : List (String × String)) (s : String)
    (hwf : wfTemplate s = true)
    (hn : ∀ n ∈ findallParams s, (lookupStr b n).isSome) :
    ∃ out, pyFormat b s = .ok out := by
  obtain ⟨out, hout⟩ := formatAux_ok_of_wf b s.data none hwf hn
  exact ⟨String.mk out, by simp [pyFormat, hout]⟩

theorem concretizeFiles_ok (root : String) (b : List (String × String))
    (l : List FileSpec)
    (h : ∀ f ∈ l, ∃ p, FileSpec.concretize f root b = .ok p) :
    ∃ ps, concretizeFiles root b l = .ok ps := by
  induction l with
  | nil => exact ⟨[], rfl⟩
  | cons f rest ih =>
      obtain ⟨p, hp⟩ := h f (List.mem_cons_self f rest)
      obtain ⟨ps, hps⟩ := ih (fun g hg => h g (List.mem_cons_of_mem _ hg))
      exact ⟨p :: ps, by simp [concretizeFiles, hp, hps]⟩

theorem mem_params_of_mem_command (ts : TaskSpec) (n : String)
    (h : n ∈ findallParams ts.command) : n ∈ ts.params := by
  rw [TaskSpec.params, mem_pySet]
  exact List.mem_append.mpr (Or.inl (List.mem_append.mpr (Or.inl h)))

theorem mem_params_of_mem_generates (ts : TaskSpec) (g : FileSpec) (n : String)
    (hg : g ∈ ts.generates) (h : n ∈ findallParams g.path) : n ∈ ts.params := by
  rw [TaskSpec.params, mem_pySet]
  refine List.mem_append.mpr (Or.inl (List.mem_append.mpr (Or.inr ?_)))
  rw [List.mem_flatten]
  exact ⟨findallParams g.path, List.mem_map.mpr ⟨g, hg, rfl⟩, h⟩

theorem mem_params_of_mem_dependencies (ts : TaskSpec) (d : FileSpec) (n : String)
    (hd : d ∈ ts.dependencies) (h : n ∈ findallParams d.path) : n ∈ ts.params := by
  rw [TaskSpec.params, mem_pySet]
  refine List.mem_append.mpr (Or.inr ?_)
  rw [List.mem_flatten]
  exact ⟨findallParams d.path, List.mem_map.mpr ⟨d, hd, rfl⟩, h⟩

/-- Claim C8: with every placeholder in the command, output and input
templates being a simple identifier, concretization raises
`MissingParameters` carrying the nonempty set
`parameters(TaskSpec) minus keys(binding)` whenever some referenced
placeholder is absent from the binding; when none is absent — in
particular when the binding carries extra parameters — concretization
succeeds. -/
theorem c8_concretize_missing_parameters (ts : TaskSpec) (root_path : String)
    (b : List (String × String)) (redo : Bool)
    (hwf : ts.wfTemplates = true) :
    (ts.params.filter (fun p => decide (p ∉ b.map (fun q => q.1))) ≠ [] →
      ts.concretize root_path b redo =
        .error (.missingParameters ts.name
          (ts.params.filter (fun p => decide (p ∉ b.map (fun q => q.1)))))) ∧
    (ts.params.filter (fun p => decide (p ∉ b.map (fun q => q.1))) = [] →
      ∃ t, ts.concretize root_path b redo = .ok t) := by
  simp only [TaskSpec.wfTemplates, Bool.and_eq_true, List.all_eq_true] at hwf
  constructor
  · intro hne
    have hnall : ts.params.all (fun p => decide (p ∈ b.map (fun q => q.1))) = false := by
      by_contra hcon
      rw [Bool.not_eq_false, List.all_eq_true] at hcon
      refine hne (List.filter_eq_nil_iff.mpr ?_)
      intro p hp
      simp only [decide_eq_true_eq, Decidable.not_not]
      have := hcon p hp
      simpa using this
    simp [TaskSpec.concretize, hnall]
  · intro hnone
    have hall : ∀ p ∈ ts.params, p ∈ b.map (fun q => q.1) := by
      intro p hp
      by_contra hcon
      have : p ∈ ts.params.filter (fun p => decide (p ∉ b.map (fun q => q.1))) := by
        rw [List.mem_filter]
        exact ⟨hp, by simpa using hcon⟩
      rw [hnone] at this
      simp at this
    have hallb : ts.params.all (fun p => decide (p ∈ b.map (fun q => q.1))) = true := by
      rw [List.all_eq_true]
      intro p hp
      simpa using hall p hp
    have hfile : ∀ (f : FileSpec), wfTemplate f.path = true →
        (∀ n ∈ findallParams f.path, n ∈ ts.params) →
        ∃ p, FileSpec.concretize f root_path b = .ok p := by
      intro f hwff hmem
      obtain ⟨out, hout⟩ := pyFormat_ok_of_wf b f.path hwff
        (fun n hn => lookupStr_isSome_of_mem b n (hall n (hmem n hn)))
      exact ⟨osJoin root_path out, by simp [FileSpec.concretize, hout]⟩
    obtain ⟨deps, hdeps⟩ := concretizeFiles_ok root_path b ts.dependencies
      (fun f hf => hfile f (hwf.2 f hf)
        (fun n hn => mem_params_of_mem_dependencies ts f n hf hn))
    obtain ⟨cmd, hcmd⟩ := pyFormat_ok_of_wf b ts.command hwf.1.1
      (fun n hn => lookupStr_isSome_of_mem b n
        (hall n (mem_params_of_mem_command ts n hn)))
    obtain ⟨gens, hgens⟩ := concretizeFiles_ok root_path b ts.generates
      (fun f hf => hfile f (hwf.1.2 f hf)
        (fun n hn => mem_params_of_mem_generates ts f n hf hn))
    refine ⟨{ name := ts.name ++ pyReprDict b, file_dependencies := deps,
              command := cmd, generates := gens, redo_if_modified := redo,
              uses := ts.uses, task_dependencies := [],
              task_successors := [] }, ?_⟩
    simp [TaskSpec.concretize, hallb, hdeps, hcmd, hgens]

def tsC8 : TaskSpec :=
  { name := "w", dependencies := [{ name := "i", path := "in_\x7ba\x7d.txt" }],
    command := "run \x7ba\x7d", generates := [{ name := "o", path := "out_\x7ba\x7d.txt" }],
    uses := [] }

def bC8 : List (String × String) := [("a", "1"), ("zz", "2")]

/-- Claim C8, witness: a one-parameter spec concretized under a binding
that also carries an unused extra parameter; concretization succeeds. -/
theorem c8_concretize_missing_parameters_witness :
    (tsC8.wfTemplates = true ∧
     tsC8.params.filter (fun p => decide (p ∉ bC8.map (fun q => q.1))) = []) ∧
    (∃ t, tsC8.concretize "root" bC8 false = .ok t) :=
  ⟨⟨by decide, by decide⟩,
    (c8_concretize_missing_parameters tsC8 "root" bC8 false (by decide)).2 (by decide)⟩

/-! ## CommandGraph construction and MakeGraph expansion (claims C4, C7)

`CommandGraph.__init__` (source lines 245-247) holds the task list and
the dict `path_to_task` from output path to producing task.  Python
object references to tasks are modeled as indices into the task list;
dict assignment is modeled by prepending (lookup takes the first, i.e.
most recent, entry). -/

structure CommandGraph where
  tasks : List Task
  path_to_task : List (String × Nat)
deriving DecidableEq

def lookupPtt (ptt : List (String × Nat)) (p : String) : Option Nat :=
  (ptt.find? (fun e => e.1 = p)).map (fun e => e.2)

/-- `MakeGraph` (source lines 192-205): the root path and the dict from
logical file name to the task spec that generates that file. -/
structure MakeGraph where
  root_path : String
  rules : List (String × TaskSpec)
deriving DecidableEq

def lookupRule (rs : List (String × TaskSpec)) (n : String) : Option TaskSpec :=
  (rs.find? (fun e => e.1 = n)).map (fun e => e.2)

/-- `MakeGraph.add_task` (source lines 202-205). -/
def MakeGraph.add_task (mg : MakeGraph) (ts : TaskSpec) : MakeGraph :=
  { mg with rules := ts.generates.foldl (fun rs g => (g.name, ts) :: rs) mg.rules }

/-- In-place update of the task object at an index. -/
def listModify {α : Type} : List α → Nat → (α → α) → List α
  | [], _, _ => []
  | x :: xs, 0, f => f x :: xs
  | x :: xs, n + 1, f => x :: listModify xs n f

/-- One edge wiring step (source lines 238-239):
`predecessor_task.task_successors.append(concrete_task)` and
`concrete_task.task_dependencies.append(predecessor_task)`. -/
def addEdge (tasks : List Task) (pidx ti : Nat) : List Task :=
  listModify
    (listModify tasks pidx
      (fun t => { t with task_successors := t.task_successors ++ [ti] }))
    ti (fun t => { t with task_dependencies := t.task_dependencies ++ [pidx] })

/-- The inner wiring loop (source lines 236-239): for each concrete
input path of the task at index `ti`, look the producer up in
`path_to_task`; a missing key is a Python `KeyError`. -/
def wireDepList (ptt : List (String × Nat)) (ti : Nat) : List String → List Task → Except PyErr (List Task)
  | [], tasks => .ok tasks
  | p :: ds, tasks =>
      match lookupPtt ptt p with
      | none => .error (.keyError p)
      | some pidx => wireDepList ptt ti ds (addEdge tasks pidx ti)

/-- The outer wiring loop (source lines 235-239) over the tasks
generated in this expansion pass.  The indices produced by the
expansion loop are always in range, so the `getD` default is never
consulted for graphs the expansion builds. -/
def wirePass (ptt : List (String × Nat)) : List Nat → List Task → Except PyErr (List Task)
  | [], tasks => .ok tasks
  | ti :: tis, tasks =>
      match wireDepList ptt ti (tasks.getD ti default).file_dependencies tasks with
      | .error e => .error e
      | .ok tasks2 => wirePass ptt tis tasks2

structure ExpandState where
  graph : CommandGraph
  to_add : List String
  done : List String
  generated : List Nat
deriving DecidableEq

/-- The worklist loop of `MakeGraph.concretize` (source lines 218-233),
fuel-indexed (`none` = fuel exhausted; every concrete evaluation below
supplies enough fuel).  Python's `set.pop` order is modeled as
first-in-first-out; `to_add` and `done` keep set semantics (no
duplicates, membership-guarded insertion).  Each popped logical name is
added to `done`, its rule is looked up (`KeyError` when absent, line
225), the spec is concretized, every generated path is assigned in
`path_to_task` — unconditionally overwriting (line 229) — the task is
appended to `tasks` (line 230) and recorded as generated in this pass,
and the rule's dependency names not already processed are enqueued
(line 233). -/
def MakeGraph.expandLoop (mg : MakeGraph) (b : List (String × String)) (redo : Bool) : Nat → ExpandState → Option (Except PyErr ExpandState)
  | 0, st => if st.to_add = [] then some (.ok st) else none
  | fuel + 1, st =>
      match st.to_add with
      | [] => some (.ok st)
      | name :: rest =>
          let done2 := name :: st.done
          match lookupRule mg.rules name with
          | none => some (.error (.keyError name))
          | some ts =>
              match ts.concretize mg.root_path b redo with
              | .error e => some (.error e)
              | .ok ct =>
                  let idx := st.graph.tasks.length
                  let ptt2 := ct.generates.foldl (fun d p => (p, idx) :: d) st.graph.path_to_task
                  let g2 : CommandGraph := { tasks := st.graph.tasks ++ [ct], path_to_task := ptt2 }
                  let to2 := (ts.dependencies.map (fun d => d.name)).foldl
                    (fun acc n => if n ∈ done2 ∨ n ∈ acc then acc else acc ++ [n]) rest
                  mg.expandLoop b redo fuel
                    { graph := g2, to_add := to2, done := done2,
                      generated := st.generated ++ [idx] }

/-- `MakeGraph.concretize(target_name, params, graph, redo_if_modified)`
(source lines 207-239): run the worklist loop starting from the target
name, then wire predecessor/successor edges for the tasks generated in
this pass. -/
def MakeGraph.concretize (mg : MakeGraph) (target : String) (b : List (String × String)) (g0 : CommandGraph) (redo : Bool) (fuel : Nat) : Option (Except PyErr CommandGraph) :=
  match mg.expandLoop b redo fuel { graph := g0, to_add := [target], done := [], generated := [] } with
  | none => none
  | some (.error e) => some (.error e)
  | some (.ok st) =>
      match wirePass st.graph.path_to_task st.generated st.graph.tasks with
      | .error e => some (.error e)
      | .ok tasks2 => some (.ok { tasks := tasks2, path_to_task := st.graph.path_to_task })

/-! ## Claim C4: deduplication across expansions -/

def tsC4 : TaskSpec :=
  { name := "t", dependencies := [], command := "cmd",
    generates := [{ name := "f", path := "out.txt" }], uses := [] }

def mgC4 : MakeGraph := { root_path := "root", rules := [("f", tsC4)] }

def taskC4 : Task :=
  { name := "t\x7b\x7d", file_dependencies := [], command := "cmd",
    generates := ["root/out.txt"], redo_if_modified := false, uses := [],
    task_dependencies := [], task_successors := [] }

def cgC4a : CommandGraph :=
  { tasks := [taskC4], path_to_task := [("root/out.txt", 0)] }

def cgC4b : CommandGraph :=
  { tasks := [taskC4, taskC4],
    path_to_task := [("root/out.txt", 1), ("root/out.txt", 0)] }

/-- Claim C4, divergence exhibited: expanding the same
`(target, binding)` twice into one CommandGraph.  The claim says the
task (whose output path collides with itself) appears only once and the
second expansion is a no-op; in the code nothing consults
`path_to_task` before appending, so the task list ends with two tasks
producing the same absolute output path (and both would be run). -/
theorem c4_duplicate_tasks_on_reexpansion :
    MakeGraph.concretize mgC4 "f" [] { tasks := [], path_to_task := [] } false 2 =
      some (.ok cgC4a) ∧
    MakeGraph.concretize mgC4 "f" [] cgC4a false 2 = some (.ok cgC4b) ∧
    cgC4b.tasks.length = 2 ∧
    cgC4b.tasks.map (fun t => t.generates) = [["root/out.txt"], ["root/out.txt"]] := by
  refine ⟨by decide, by decide, by decide, by decide⟩

/-! ## Claim C7: inputs with no producer in the graph -/

def tsC7f : TaskSpec :=
  { name := "tf", dependencies := [{ name := "x", path := "a.txt" }],
    command := "c1", generates := [{ name := "f", path := "f.txt" }], uses := [] }

def tsC7x : TaskSpec :=
  { name := "tx", dependencies := [], command := "c2",
    generates := [{ name := "x", path := "b.txt" }], uses := [] }

def mgC7 : MakeGraph :=
  { root_path := "root", rules := [("f", tsC7f), ("x", tsC7x)] }

/-- Claim C7, counterexample: the logical name `x` is produced by a
task whose generating path differs from the path template the consumer
cites for `x`, so the consumer's concrete input path `root/a.txt` is
not a key of `path_to_task`.  The claim says the wiring step records no
edge and completes without error; the code raises `KeyError` on the
unguarded dict lookup. -/
theorem c7_counterexample :
    lookupPtt [("root/b.txt", 1), ("root/f.txt", 0)] "root/a.txt" = none ∧
    MakeGraph.concretize mgC7 "f" [] { tasks := [], path_to_task := [] } false 3 =
      some (.error (.keyError "root/a.txt")) := by
  refine ⟨by decide, by decide⟩

/-- Claim C7 (amended): whenever some concrete input path of the task
being wired is not a key of `path_to_task`, the wiring loop raises a
`KeyError` naming an input path with no producer — inputs without a
producer are not treated as external source files. -/
theorem c7_wiring_key_error (ptt : List (String × Nat)) (ti : Nat)
    (ds : List String) (tasks : List Task)
    (h : ∃ p ∈ ds, lookupPtt ptt p = none) :
    ∃ q, wireDepList ptt ti ds tasks = .error (.keyError q) ∧
      lookupPtt ptt q = none := by
  induction ds generalizing tasks with
  | nil => simp at h
  | cons p ds ih =>
      cases hp : lookupPtt ptt p with
      | none => exact ⟨p, by simp [wireDepList, hp], hp⟩
      | some pidx =>
          have h2 : ∃ q ∈ ds, lookupPtt ptt q = none := by
            obtain ⟨q, hq, hqn⟩ := h
            rcases List.mem_cons.mp hq with rfl | hq2
            · rw [hp] at hqn
              cases hqn
            · exact ⟨q, hq2, hqn⟩
          obtain ⟨q, hq⟩ := ih (addEdge tasks pidx ti) h2
          exact ⟨q, by simpa [wireDepList, hp] using hq⟩

/-- Claim C7 (amended), witness: one input path absent from the
producer index. -/
theorem c7_wiring_key_error_witness :
    (∃ p ∈ ["root/a.txt"], lookupPtt [("root/b.txt", 0)] p = none) ∧
    (∃ q, wireDepList [("root/b.txt", 0)] 1 ["root/a.txt"] [] =
        .error (.keyError q) ∧ lookupPtt [("root/b.txt", 0)] q = none) :=
  ⟨by decide, c7_wiring_key_error [("root/b.txt", 0)] 1 ["root/a.txt"] [] (by decide)⟩

end Oregan
